import Mathlib

/-!
# Verification of the log-analyzer core (src/main.rs)

Shallow embedding of the record-parsing-and-aggregation pipeline:

* `Json` / `from_str`  — model of `serde_json::Value` and `serde_json::from_str`
  (recursive-descent JSON parser; numeric values are kept as their lexemes since
  the program never inspects them, only checks string-typedness via `as_str`);
* `parse_json`         — the three-stage per-line decoder (`main.rs`, lines 72-91);
* `from_iter`          — the fold of `FromIterator<LogEntryStatistic> for
  HashMap<String, usize>` (`main.rs`, lines 41-54); `usize` addition is modelled
  as `Nat` addition reduced modulo `2 ^ 64` (release-profile wrapping semantics);
* `read_json_objects`  — the stream processor (`main.rs`, lines 106-126), taking
  the line source as a list of `Except`s (an `io::Result<String>` per line) and
  returning the grouping map together with the list of emitted warnings;
* `rustLines`          — `BufRead::lines` on the file contents: split at each
  `\n`, strip the `\n` and a `\r` directly before it; a final unterminated
  segment is yielded unchanged.
-/

namespace LogAnalyzer

/-- `static GROUP_ID: &str = "type"` — the JSON key used for grouping. -/
def GROUP_ID : String := "type"

/-- Modulus of `usize` on a 64-bit target. -/
def USIZE : Nat := 2 ^ 64

/-- Model of `serde_json::Value`.  Numbers are kept as their source lexeme:
the program only ever asks whether a value is a string (`as_str`), so the
numeric interpretation is irrelevant to every observable behaviour. -/
inductive Json where
  | null
  | bool (b : Bool)
  | num (lexeme : String)
  | str (s : String)
  | arr (elems : List Json)
  | obj (fields : List (String × Json))

/-- `Value::get(key)` with a string index: a map lookup on objects, `None`
on every other variant. -/
def Json.get (j : Json) (k : String) : Option Json :=
  match j with
  | .obj fields => (fields.find? (fun p => p.1 == k)).map (fun p => p.2)
  | _ => none

/-- `Value::as_str`: `Some` exactly on the string variant. -/
def Json.as_str : Json → Option String
  | .str s => some s
  | _ => none

/-! ## The JSON parser (model of `serde_json::from_str`) -/

/-- JSON insignificant whitespace. -/
def isWs (c : Char) : Bool :=
  c = ' ' || c = '\t' || c = '\n' || c = '\r'

/-- Skip insignificant whitespace. -/
def skipWs : List Char → List Char
  | [] => []
  | c :: rest => if isWs c then skipWs rest else c :: rest

/-- Value of one hex digit. -/
def hexVal (c : Char) : Option Nat :=
  if '0' ≤ c ∧ c ≤ '9' then some (c.toNat - '0'.toNat)
  else if 'a' ≤ c ∧ c ≤ 'f' then some (c.toNat - 'a'.toNat + 10)
  else if 'A' ≤ c ∧ c ≤ 'F' then some (c.toNat - 'A'.toNat + 10)
  else none

/-- Four hex digits, as in a `\uXXXX` escape. -/
def hex4 : List Char → Option (Nat × List Char)
  | a :: b :: c :: d :: rest => do
    let x ← hexVal a
    let y ← hexVal b
    let z ← hexVal c
    let w ← hexVal d
    pure ((((x * 16 + y) * 16 + z) * 16 + w), rest)
  | _ => none

/-- Body of a JSON string after the opening quote, with escape decoding
(including surrogate pairs; lone surrogates and raw control characters are
rejected, as in serde_json).  `acc` is the decoded content, reversed. -/
def pStr : Nat → List Char → List Char → Option (String × List Char)
  | 0, _, _ => none
  | fuel + 1, acc, cs =>
    match cs with
    | [] => none
    | c :: rest =>
      if c = '\"' then some (acc.reverse.asString, rest)
      else if c = '\\' then
        match rest with
        | [] => none
        | e :: rest2 =>
          if e = '\"' then pStr fuel ('\"' :: acc) rest2
          else if e = '\\' then pStr fuel ('\\' :: acc) rest2
          else if e = '/' then pStr fuel ('/' :: acc) rest2
          else if e = 'b' then pStr fuel ('\x08' :: acc) rest2
          else if e = 'f' then pStr fuel ('\x0c' :: acc) rest2
          else if e = 'n' then pStr fuel ('\n' :: acc) rest2
          else if e = 'r' then pStr fuel ('\r' :: acc) rest2
          else if e = 't' then pStr fuel ('\t' :: acc) rest2
          else if e = 'u' then
            match hex4 rest2 with
            | none => none
            | some (n, rest3) =>
              if 0xD800 ≤ n ∧ n ≤ 0xDBFF then
                match rest3 with
                | '\\' :: 'u' :: rest4 =>
                  match hex4 rest4 with
                  | none => none
                  | some (m, rest5) =>
                    if 0xDC00 ≤ m ∧ m ≤ 0xDFFF then
                      pStr fuel
                        (Char.ofNat (0x10000 + (n - 0xD800) * 0x400 + (m - 0xDC00)) :: acc) rest5
                    else none
                | _ => none
              else if 0xDC00 ≤ n ∧ n ≤ 0xDFFF then none
              else pStr fuel (Char.ofNat n :: acc) rest3
          else none
      else if c.toNat < 0x20 then none
      else pStr fuel (c :: acc) rest

/-- Longest digit run. -/
def takeDigits : List Char → List Char × List Char
  | [] => ([], [])
  | c :: rest =>
    if c.isDigit then
      let (ds, r) := takeDigits rest
      (c :: ds, r)
    else ([], c :: rest)

/-- Integer part of a JSON number: `0`, or a nonzero digit followed by digits
(leading zeros are rejected by stopping after a leading `0`, exactly as
serde_json refuses further digits there). -/
def pIntPart : List Char → Option (List Char × List Char)
  | [] => none
  | c :: rest =>
    if c = '0' then some ([c], rest)
    else if c.isDigit then
      let (ds, r) := takeDigits rest
      some (c :: ds, r)
    else none

/-- Optional fraction part: `.` followed by at least one digit. -/
def pFrac : List Char → Option (List Char × List Char)
  | '.' :: rest =>
    let (ds, r) := takeDigits rest
    if ds.isEmpty then none else some ('.' :: ds, r)
  | cs => some ([], cs)

/-- Optional exponent part: `e`/`E`, optional sign, at least one digit. -/
def pExp : List Char → Option (List Char × List Char)
  | [] => some ([], [])
  | c :: rest =>
    if c = 'e' ∨ c = 'E' then
      match rest with
      | [] => none
      | s :: rest2 =>
        if s = '+' ∨ s = '-' then
          let (ds, r) := takeDigits rest2
          if ds.isEmpty then none else some (c :: s :: ds, r)
        else
          let (ds, r) := takeDigits rest
          if ds.isEmpty then none else some (c :: ds, r)
    else some ([], c :: rest)

/-- A JSON number (grammar `-? int frac? exp?`), kept as its lexeme. -/
def pNumber (cs : List Char) : Option (Json × List Char) :=
  let (sgn, cs1) :=
    match cs with
    | '-' :: rest => (['-'], rest)
    | _ => ([], cs)
  match pIntPart cs1 with
  | none => none
  | some (ip, cs2) =>
    match pFrac cs2 with
    | none => none
    | some (fp, cs3) =>
      match pExp cs3 with
      | none => none
      | some (ep, cs4) => some (.num ((sgn ++ ip ++ fp ++ ep).asString), cs4)

/-- Insert into an object, overwriting an existing binding of the same key in
place (the lookup semantics of `serde_json::Map::insert`). -/
def objInsert : List (String × Json) → String → Json → List (String × Json)
  | [], k, v => [(k, v)]
  | (k2, v2) :: rest, k, v =>
    if k2 = k then (k2, v) :: rest else (k2, v2) :: objInsert rest k v

mutual

/-- A JSON value (fuelled; the fuel only bounds recursion depth and every
recursive call consumes input, so `2 * length + 4` fuel never runs out). -/
def pVal : Nat → List Char → Option (Json × List Char)
  | 0, _ => none
  | fuel + 1, cs =>
    match skipWs cs with
    | [] => none
    | 'n' :: 'u' :: 'l' :: 'l' :: rest => some (.null, rest)
    | 't' :: 'r' :: 'u' :: 'e' :: rest => some (.bool true, rest)
    | 'f' :: 'a' :: 'l' :: 's' :: 'e' :: rest => some (.bool false, rest)
    | '\"' :: rest => (pStr fuel [] rest).map (fun p => (.str p.1, p.2))
    | '[' :: rest => pArrBody fuel rest
    | '\x7b' :: rest => pObjBody fuel rest
    | c :: rest => if c = '-' ∨ c.isDigit then pNumber (c :: rest) else none

/-- Array elements, after the opening bracket. -/
def pArrBody : Nat → List Char → Option (Json × List Char)
  | 0, _ => none
  | fuel + 1, cs =>
    match skipWs cs with
    | ']' :: rest => some (.arr [], rest)
    | cs1 =>
      match pVal fuel cs1 with
      | none => none
      | some (v, rest) => pArrRest fuel [v] rest

/-- Further array elements; `acc` holds the elements parsed so far, reversed. -/
def pArrRest : Nat → List Json → List Char → Option (Json × List Char)
  | 0, _, _ => none
  | fuel + 1, acc, cs =>
    match skipWs cs with
    | ',' :: rest =>
      match pVal fuel rest with
      | none => none
      | some (v, rest2) => pArrRest fuel (v :: acc) rest2
    | ']' :: rest => some (.arr acc.reverse, rest)
    | _ => none

/-- Object members, after the opening brace. -/
def pObjBody : Nat → List Char → Option (Json × List Char)
  | 0, _ => none
  | fuel + 1, cs =>
    match skipWs cs with
    | '\x7d' :: rest => some (.obj [], rest)
    | '\"' :: rest =>
      match pStr fuel [] rest with
      | none => none
      | some (k, rest2) =>
        match skipWs rest2 with
        | ':' :: rest3 =>
          match pVal fuel rest3 with
          | none => none
          | some (v, rest4) => pObjRest fuel (objInsert [] k v) rest4
        | _ => none
    | _ => none

/-- Further object members; `acc` holds the bindings parsed so far. -/
def pObjRest : Nat → List (String × Json) → List Char → Option (Json × List Char)
  | 0, _, _ => none
  | fuel + 1, acc, cs =>
    match skipWs cs with
    | ',' :: rest =>
      match skipWs rest with
      | '\"' :: rest2 =>
        match pStr fuel [] rest2 with
        | none => none
        | some (k, rest3) =>
          match skipWs rest3 with
          | ':' :: rest4 =>
            match pVal fuel rest4 with
            | none => none
            | some (v, rest5) => pObjRest fuel (objInsert acc k v) rest5
          | _ => none
      | _ => none
    | '\x7d' :: rest => some (.obj acc, rest)
    | _ => none

end

/-- Model of `serde_json::from_str::<Value>`: a single JSON value, surrounded
by optional whitespace, consuming the whole input. -/
def from_str (s : String) : Option Json :=
  match pVal (2 * s.data.length + 4) s.data with
  | none => none
  | some (v, rest) => if skipWs rest = [] then some v else none

/-! ## The per-line decoder and the aggregation fold -/

/-- `struct LogEntryStatistic` (`main.rs`, lines 32-38). -/
structure LogEntryStatistic where
  t : String
  size : Nat
deriving DecidableEq, Repr

/-- `struct ParseError` (`main.rs`, lines 56-60). -/
structure ParseError where
  context : String
deriving DecidableEq, Repr

/-- `fn parse_json` (`main.rs`, lines 72-91): structural decode, `GROUP_ID`
lookup, string check; on success `size` is `raw.len()`, the byte length of
the raw line. -/
def parse_json (raw : String) : Except ParseError LogEntryStatistic :=
  match from_str raw with
  | none => .error ⟨raw⟩
  | some json =>
    match json.get GROUP_ID with
    | none => .error ⟨raw⟩
    | some x =>
      match x.as_str with
      | none => .error ⟨raw⟩
      | some s => .ok ⟨s, raw.utf8ByteSize⟩

/-- One step of `*hash_map.entry(x.t).or_insert(0) += x.size` (`main.rs`,
line 49) on an association-list model of `HashMap<String, usize>`; `usize`
addition wraps modulo `2 ^ 64` (release-profile semantics). -/
def insertAdd : List (String × Nat) → String → Nat → List (String × Nat)
  | [], k, s => [(k, (0 + s) % USIZE)]
  | (k2, v) :: rest, k, s =>
    if k2 = k then (k2, (v + s) % USIZE) :: rest else (k2, v) :: insertAdd rest k s

/-- `HashMap` lookup on the association-list model. -/
def hmLookup : List (String × Nat) → String → Option Nat
  | [], _ => none
  | (k2, v) :: rest, k => if k2 = k then some v else hmLookup rest k

/-- `FromIterator<LogEntryStatistic> for HashMap<String, usize>` (`main.rs`,
lines 41-54): fold every statistic into the accumulating map. -/
def from_iter (l : List LogEntryStatistic) : List (String × Nat) :=
  l.foldl (fun m x => insertAdd m x.t x.size) []

/-! ## The stream processor -/

/-- The warning printed for a line-read failure (`main.rs`, line 113). -/
def warnRead (e : String) : String :=
  "Warning: Could not read line from file: \"" ++ e ++
    "\". Statistics might be unreliable."

/-- The warning printed for a parse failure (`main.rs`, line 119). -/
def warnParse (ctx : String) : String :=
  "Warning: Wrongly formatted object: \"" ++ ctx ++
    "\". Object needs to be valid JSON containing a \"" ++ GROUP_ID ++
    "\" field of type String. Statistics might be unreliable."

/-- One iterator step of `read_json_objects`: a read error or a parse error
appends its warning; a parsed statistic is appended to the successes. -/
def processLine (acc : List LogEntryStatistic × List String)
    (x : Except String String) : List LogEntryStatistic × List String :=
  match x with
  | .error e => (acc.1, acc.2 ++ [warnRead e])
  | .ok s =>
    match parse_json s with
    | .error pe => (acc.1, acc.2 ++ [warnParse pe.context])
    | .ok r => (acc.1 ++ [r], acc.2)

/-- `fn read_json_objects` (`main.rs`, lines 106-126) over an explicit line
source (each item an `io::Result<String>`): filter read failures with a
warning, parse, filter parse failures with a warning, and `collect()` the
survivors through `from_iter`.  Returns the grouping map and the warnings
in emission order. -/
def read_json_objects (input : List (Except String String)) :
    List (String × Nat) × List String :=
  let p := input.foldl processLine ([], [])
  (from_iter p.1, p.2)

/-- The statistic a line source item contributes, if any. -/
def recordOf : Except String String → Option LogEntryStatistic
  | .error _ => none
  | .ok s => (parse_json s).toOption

/-- The warning a line source item provokes, if any. -/
def warningOf : Except String String → Option String
  | .error e => some (warnRead e)
  | .ok s =>
    match parse_json s with
    | .error pe => some (warnParse pe.context)
    | .ok _ => none

/-! ## The line source (`BufRead::lines`) -/

/-- Emit one newline-terminated line: `acc` is the line content reversed, so a
`\r` at its head is a `\r` directly before the `\n` and is stripped. -/
def emitLine (acc : List Char) : List Char :=
  match acc with
  | [] => []
  | c :: t => if c = '\r' then t.reverse else (c :: t).reverse

/-- `BufRead::lines` on the decoded file contents: split at `\n`, strip the
`\n` and a `\r` directly before it; a final segment without a terminator is
yielded unchanged, and a trailing `\n` produces no extra empty line. -/
def linesAux : List Char → List Char → List (List Char)
  | acc, [] => if acc = [] then [] else [acc.reverse]
  | acc, c :: rest =>
    if c = '\n' then emitLine acc :: linesAux [] rest
    else linesAux (c :: acc) rest

/-- The lines of a file as handed to the parser. -/
def rustLines (s : String) : List String :=
  (linesAux [] s.data).map List.asString

/-- The whole pipeline on the contents of a file that reads without error. -/
def processFile (content : String) : List (String × Nat) × List String :=
  read_json_objects ((rustLines content).map Except.ok)

/-! ## Helper notions and lemmas -/

/-- The sizes of the records of group `g`, in order. -/
def sizesOf (l : List LogEntryStatistic) (g : String) : List Nat :=
  (l.filter fun r => r.t == g).map fun r => r.size

/-- Every value stored in the map is already reduced modulo `USIZE`. -/
def mapReduced (m : List (String × Nat)) : Prop :=
  ∀ k v, hmLookup m k = some v → v < USIZE

/-- The total an existing balance `o` reaches after folding in the sizes `ss`. -/
def accTotal (o : Option Nat) (ss : List Nat) : Option Nat :=
  match o with
  | some v => some ((v + ss.sum) % USIZE)
  | none => if ss = [] then none else some (ss.sum % USIZE)

theorem USIZE_pos : 0 < USIZE := by decide

theorem hmLookup_insertAdd_self (m : List (String × Nat)) (k : String) (s : Nat) :
    hmLookup (insertAdd m k s) k = some (((hmLookup m k).getD 0 + s) % USIZE) := by
  induction m with
  | nil => simp [insertAdd, hmLookup]
  | cons p rest ih =>
    obtain ⟨k2, v⟩ := p
    by_cases h : k2 = k
    · simp [insertAdd, hmLookup, h]
    · simp [insertAdd, hmLookup, h, ih]

theorem hmLookup_insertAdd_ne (m : List (String × Nat)) (k : String) (s : Nat)
    (k2 : String) (h : k2 ≠ k) :
    hmLookup (insertAdd m k s) k2 = hmLookup m k2 := by
  have hk : k ≠ k2 := Ne.symm h
  induction m with
  | nil => simp [insertAdd, hmLookup, hk]
  | cons p rest ih =>
    obtain ⟨k3, v⟩ := p
    by_cases h3 : k3 = k
    · subst h3
      simp [insertAdd, hmLookup, hk]
    · by_cases h2 : k3 = k2 <;> simp [insertAdd, hmLookup, h2, h3, h, ih]

theorem mapReduced_nil : mapReduced [] := by
  intro k v h
  simp [hmLookup] at h

theorem mapReduced_insertAdd (m : List (String × Nat)) (k : String) (s : Nat)
    (h : mapReduced m) : mapReduced (insertAdd m k s) := by
  intro k2 v hv
  by_cases hk : k2 = k
  · subst hk
    rw [hmLookup_insertAdd_self] at hv
    cases hv
    exact Nat.mod_lt _ USIZE_pos
  · rw [hmLookup_insertAdd_ne m k s k2 hk] at hv
    exact h k2 v hv

theorem sizesOf_cons (x : LogEntryStatistic) (l : List LogEntryStatistic) (g : String) :
    sizesOf (x :: l) g =
      if x.t = g then x.size :: sizesOf l g else sizesOf l g := by
  by_cases h : x.t = g <;> simp [sizesOf, List.filter_cons, h]

/-- Folding statistics into a map whose values are reduced updates each
balance by the modular sum of the matching sizes. -/
theorem foldl_insertAdd_lookup (l : List LogEntryStatistic) (m : List (String × Nat))
    (g : String) (hm : mapReduced m) :
    hmLookup (l.foldl (fun m x => insertAdd m x.t x.size) m) g =
      accTotal (hmLookup m g) (sizesOf l g) := by
  induction l generalizing m with
  | nil =>
    simp only [List.foldl_nil, sizesOf, List.filter_nil, List.map_nil, accTotal]
    cases h : hmLookup m g with
    | none => simp
    | some v =>
      have hv := hm g v h
      simp [Nat.mod_eq_of_lt hv]
  | cons x t ih =>
    rw [List.foldl_cons, ih _ (mapReduced_insertAdd m x.t x.size hm), sizesOf_cons]
    by_cases hx : x.t = g
    · rw [if_pos hx]
      subst hx
      rw [hmLookup_insertAdd_self]
      cases h : hmLookup m x.t with
      | none => simp [accTotal, Nat.mod_add_mod]
      | some v => simp [accTotal, Nat.mod_add_mod, Nat.add_assoc]
    · rw [hmLookup_insertAdd_ne m x.t x.size g (Ne.symm hx), if_neg hx]

/-- Characterization of the map built by `from_iter`: the balance of `g` is
the modular sum of the sizes of the records of group `g`, absent when there
is no such record. -/
theorem from_iter_lookup (l : List LogEntryStatistic) (g : String) :
    hmLookup (from_iter l) g =
      if sizesOf l g = [] then none else some ((sizesOf l g).sum % USIZE) := by
  rw [from_iter, foldl_insertAdd_lookup l [] g mapReduced_nil]
  simp [hmLookup, accTotal]

/-- Unrolling the stream processor: the fold appends exactly the parsed
statistics and exactly one warning per failing line, in order. -/
theorem foldl_processLine_eq (input : List (Except String String))
    (recs : List LogEntryStatistic) (warns : List String) :
    input.foldl processLine (recs, warns) =
      (recs ++ input.filterMap recordOf, warns ++ input.filterMap warningOf) := by
  induction input generalizing recs warns with
  | nil => simp
  | cons x t ih =>
    cases x with
    | error e => simp [processLine, recordOf, warningOf, List.filterMap_cons, ih]
    | ok s =>
      cases hp : parse_json s with
      | error pe =>
        simp [processLine, recordOf, warningOf, Except.toOption, List.filterMap_cons, hp, ih]
      | ok r =>
        simp [processLine, recordOf, warningOf, Except.toOption, List.filterMap_cons, hp, ih]

/-- The stream processor, in closed form: aggregate the per-line successes,
report the per-line failures. -/
theorem read_json_objects_eq (input : List (Except String String)) :
    read_json_objects input =
      (from_iter (input.filterMap recordOf), input.filterMap warningOf) := by
  simp [read_json_objects, foldl_processLine_eq]

theorem length_filterMap_eq_countP (f : Except String String → Option String)
    (l : List (Except String String)) :
    (l.filterMap f).length = l.countP (fun x => (f x).isSome) := by
  induction l with
  | nil => rfl
  | cons x t ih =>
    cases h : f x <;> simp [List.filterMap_cons, h, List.countP_cons, ih]

/-- Splitting off one `\n`-terminated line. -/
theorem linesAux_newline (ld : List Char) (acc rd : List Char)
    (h : ∀ c ∈ ld, c ≠ '\n') :
    linesAux acc (ld ++ '\n' :: rd) =
      emitLine (ld.reverse ++ acc) :: linesAux [] rd := by
  induction ld generalizing acc with
  | nil => simp [linesAux]
  | cons c t ih =>
    have hc : c ≠ '\n' := h c (by simp)
    have hrest : ∀ d ∈ t, d ≠ '\n' := fun d hd => h d (by simp [hd])
    rw [List.cons_append]
    simp only [linesAux, if_neg hc]
    rw [ih (c :: acc) hrest]
    simp [List.append_assoc]

/-- A line whose last character is not `\r` passes through `emitLine`
unchanged. -/
theorem emitLine_reverse (l : List Char) (h : l.getLast? ≠ some '\r') :
    emitLine l.reverse = l := by
  cases hr : l.reverse with
  | nil =>
    have hl : l = [] := by simpa using congrArg List.reverse hr
    simp [hl, emitLine]
  | cons c t =>
    have hc : c ≠ '\r' := by
      intro hce
      apply h
      rw [← List.head?_reverse, hr, hce]
      rfl
    have hl : l = (c :: t).reverse := by simpa using congrArg List.reverse hr
    rw [hl]
    simp [emitLine, hc]

theorem filterMap_replicate_some {α β : Type} (f : α → Option β) (x : α) (y : β)
    (h : f x = some y) (n : Nat) :
    (List.replicate n x).filterMap f = List.replicate n y := by
  induction n with
  | zero => rfl
  | succ n ih => simp [List.replicate_succ, List.filterMap_cons, h, ih]

theorem filter_replicate_true {α : Type} (p : α → Bool) (x : α)
    (h : p x = true) (n : Nat) :
    (List.replicate n x).filter p = List.replicate n x := by
  induction n with
  | zero => rfl
  | succ n ih => simp [List.replicate_succ, List.filter_cons, h, ih]

theorem map_replicate_eq {α β : Type} (f : α → β) (x : α) (n : Nat) :
    (List.replicate n x).map f = List.replicate n (f x) := by
  induction n with
  | zero => rfl
  | succ n ih => simp [List.replicate_succ, ih]

/-- Inverting a successful parse: the statistic records the byte length of the
raw line and the string found under the grouping key. -/
theorem parse_json_ok_inv (raw : String) (r : LogEntryStatistic)
    (h : parse_json raw = Except.ok r) :
    r.size = raw.utf8ByteSize ∧
      ∃ j, from_str raw = some j ∧ j.get GROUP_ID = some (Json.str r.t) := by
  unfold parse_json at h
  cases hj : from_str raw with
  | none => rw [hj] at h; cases h
  | some j =>
    rw [hj] at h
    simp only [] at h
    cases hg : j.get GROUP_ID with
    | none => rw [hg] at h; cases h
    | some x =>
      rw [hg] at h
      simp only [] at h
      cases hs : x.as_str with
      | none => rw [hs] at h; cases h
      | some s =>
        rw [hs] at h
        simp only [] at h
        have hx : x = Json.str s := by
          cases x <;> simp_all [Json.as_str]
        cases h
        exact ⟨rfl, j, rfl, by rw [hg, hx]⟩

/-- Sample maps and inputs used in the concrete instances below. -/
def lineA1 : String := "\x7b\"type\":\"A\",\"x\":1\x7d"

def lineA2 : String := "\x7b\"type\":\"A\",\"x\":2\x7d"

def lineB : String := "\x7b\"type\":\"B\"\x7d"

def lineA : String := "\x7b\"type\":\"A\"\x7d"

def lineNum : String := "\x7b\"type\":5\x7d"

/-- The three Scenario A lines, as one newline-terminated file. -/
def scenarioContent : String := lineA1 ++ "\n" ++ lineA2 ++ "\n" ++ lineB ++ "\n"

/-- Two successfully-parsing lines of group `A`. -/
def wInput : List (Except String String) := [Except.ok lineA1, Except.ok lineA2]

/-- A line source with `2 ^ 64` copies of one 12-byte line of group `A`:
the group total wraps around to `0`. -/
def bigInput : List (Except String String) := List.replicate USIZE (Except.ok lineA)

/-- A line source on which every line fails (bad JSON, a read error, and a
missing grouping field). -/
def allFailInput : List (Except String String) :=
  [Except.ok "not json", Except.error "disk error", Except.ok "\x7b\"x\":1\x7d"]

def permL1 : List LogEntryStatistic := [⟨"A", 1⟩, ⟨"B", 2⟩, ⟨"A", 4⟩]

def permL2 : List LogEntryStatistic := [⟨"B", 2⟩, ⟨"A", 4⟩, ⟨"A", 1⟩]

/-- Extensional equality of grouping maps: the same balance under every key. -/
def mapEquiv (m1 m2 : List (String × Nat)) : Prop :=
  ∀ g, hmLookup m1 g = hmLookup m2 g

/-! ## The claims -/

/-- C1, corrected.  For every sequence of input lines the final grouping map
contains a key `g` iff some line parsed successfully into a record of group
`g`, and the balance stored under `g` is the sum of `size` over exactly those
records reduced modulo `2 ^ 64` — equal to the exact sum whenever that sum is
below `2 ^ 64`.  (The original claim asserted the exact sum unconditionally;
`usize` accumulation wraps, see the counterexample.) -/
theorem c1_grouping_totals (input : List (Except String String)) (g : String) :
    ((hmLookup (read_json_objects input).1 g).isSome ↔
      ∃ r ∈ input.filterMap recordOf, r.t = g)
    ∧ ∀ v, hmLookup (read_json_objects input).1 g = some v →
        v = (sizesOf (input.filterMap recordOf) g).sum % USIZE
        ∧ ((sizesOf (input.filterMap recordOf) g).sum < USIZE →
            v = (sizesOf (input.filterMap recordOf) g).sum) := by
  rw [read_json_objects_eq]
  constructor
  · by_cases hnil : sizesOf (input.filterMap recordOf) g = []
    · rw [from_iter_lookup, if_pos hnil]
      refine iff_of_false (by simp) ?_
      rintro ⟨r, hr, hg⟩
      have hmem : r.size ∈ sizesOf (input.filterMap recordOf) g :=
        List.mem_map_of_mem _ (List.mem_filter.mpr ⟨hr, by simp [hg]⟩)
      rw [hnil] at hmem
      cases hmem
    · rw [from_iter_lookup, if_neg hnil]
      refine iff_of_true rfl ?_
      have hf : (input.filterMap recordOf).filter (fun r => r.t == g) ≠ [] := by
        intro hcon
        apply hnil
        unfold sizesOf
        rw [hcon]
        rfl
      obtain ⟨r, hr⟩ := List.exists_mem_of_ne_nil _ hf
      have hrr := List.mem_filter.mp hr
      exact ⟨r, hrr.1, by simpa using hrr.2⟩
  · intro v hv
    rw [from_iter_lookup] at hv
    by_cases hnil : sizesOf (input.filterMap recordOf) g = []
    · rw [if_pos hnil] at hv
      cases hv
    · rw [if_neg hnil] at hv
      injection hv with hv
      exact ⟨hv.symm, fun hlt => by rw [← hv, Nat.mod_eq_of_lt hlt]⟩

/-- C1, witness: with the two 18-byte lines of group `A` the stored balance
is the exact sum `36`. -/
theorem c1_grouping_totals_witness :
    (36 : Nat) = (sizesOf (wInput.filterMap recordOf) "A").sum :=
  ((c1_grouping_totals wInput "A").2 36 (by decide)).2 (by decide)

/-- C1, counterexample to the claim as stated: on `2 ^ 64` copies of a 12-byte
line of group `A` the stored balance is `0`, not the exact sum
`12 * 2 ^ 64`. -/
theorem c1_grouping_totals_cex :
    hmLookup (read_json_objects bigInput).1 "A" ≠
      some ((sizesOf (bigInput.filterMap recordOf) "A").sum) := by
  have hrec : recordOf (Except.ok lineA) = some ⟨"A", 12⟩ := by rfl
  have h1 : bigInput.filterMap recordOf =
      List.replicate USIZE (⟨"A", 12⟩ : LogEntryStatistic) :=
    filterMap_replicate_some _ _ _ hrec USIZE
  have hsz : sizesOf (bigInput.filterMap recordOf) "A" = List.replicate USIZE 12 := by
    rw [h1]
    unfold sizesOf
    rw [filter_replicate_true _ _ rfl USIZE, map_replicate_eq]
  have hsum : (List.replicate USIZE (12 : Nat)).sum = USIZE * 12 := by
    simp [List.sum_replicate, smul_eq_mul]
  have hne : List.replicate USIZE (12 : Nat) ≠ [] := by
    intro hcon
    have hl := congrArg List.length hcon
    simp only [List.length_replicate, List.length_nil] at hl
    exact absurd hl (by decide)
  have hkey : hmLookup (from_iter (bigInput.filterMap recordOf)) "A" = some 0 := by
    rw [from_iter_lookup, hsz, if_neg hne, hsum, Nat.mul_mod_right]
  have hmap : (read_json_objects bigInput).1 = from_iter (bigInput.filterMap recordOf) := by
    rw [read_json_objects_eq]
  intro hcon
  rw [hmap, hkey, hsz, hsum] at hcon
  injection hcon with hcon
  have hpos : 0 < USIZE * 12 := Nat.mul_pos USIZE_pos (by decide)
  omega

/-- C2, confirmed.  Folding any permutation of a record sequence through the
aggregator yields the same grouping map, as a mapping. -/
theorem c2_order_independence (l1 l2 : List LogEntryStatistic) (h : l1.Perm l2) :
    mapEquiv (from_iter l1) (from_iter l2) := by
  intro g
  have hp : (sizesOf l1 g).Perm (sizesOf l2 g) := (h.filter _).map _
  rw [from_iter_lookup, from_iter_lookup]
  by_cases hnil : sizesOf l1 g = []
  · have h2 : sizesOf l2 g = [] := by
      have hl := hp.length_eq
      rw [hnil] at hl
      exact List.length_eq_zero.mp hl.symm
    rw [if_pos hnil, if_pos h2]
  · have h2 : sizesOf l2 g ≠ [] := by
      intro hcon
      apply hnil
      have hl := hp.length_eq
      rw [hcon] at hl
      exact List.length_eq_zero.mp hl
    rw [if_neg hnil, if_neg h2, hp.sum_eq]

/-- C2, witness: a concrete three-element permutation. -/
theorem c2_order_independence_witness :
    mapEquiv (from_iter permL1) (from_iter permL2) :=
  c2_order_independence permL1 permL2 (by decide)

/-- C3, confirmed.  A successful parse records as `size` the byte length of
the raw line exactly as given (whitespace included) and as group the string
value found under the grouping key. -/
theorem c3_parse_success_fields (raw : String) (r : LogEntryStatistic)
    (h : parse_json raw = Except.ok r) :
    r.size = raw.utf8ByteSize ∧
      ∃ j, from_str raw = some j ∧ j.get GROUP_ID = some (Json.str r.t) :=
  parse_json_ok_inv raw r h

/-- C3, witness: the 12-byte line of group `B`. -/
theorem c3_parse_success_fields_witness :
    (LogEntryStatistic.mk "B" 12).size = lineB.utf8ByteSize ∧
      ∃ j, from_str lineB = some j ∧
        j.get GROUP_ID = some (Json.str (LogEntryStatistic.mk "B" 12).t) :=
  c3_parse_success_fields lineB ⟨"B", 12⟩ (by rfl)

/-- C4, confirmed.  A line that deserializes but whose grouping-key value is
absent or not a string yields the same outcome, `ParseError` carrying the raw
line; the two cases are indistinguishable in the result. -/
theorem c4_type_mismatch_eq_absence (raw : String) (j : Json)
    (h1 : from_str raw = some j)
    (h2 : j.get GROUP_ID = none ∨
      ∃ x, j.get GROUP_ID = some x ∧ x.as_str = none) :
    parse_json raw = Except.error ⟨raw⟩ := by
  unfold parse_json
  rw [h1]
  simp only []
  rcases h2 with h2 | ⟨x, hx, hs⟩
  · rw [h2]
  · rw [hx]
    simp only []
    rw [hs]

/-- C4, witness: the Scenario D line with a numeric grouping value. -/
theorem c4_type_mismatch_eq_absence_witness :
    parse_json lineNum = Except.error ⟨lineNum⟩ :=
  c4_type_mismatch_eq_absence lineNum (Json.obj [(GROUP_ID, Json.num "5")])
    (by rfl) (Or.inr ⟨Json.num "5", rfl, rfl⟩)

/-- C5, confirmed.  The stream processor always returns a grouping map built
from exactly the successfully parsed lines (failing lines are skipped, never
fatal), and emits exactly one warning per failing line, in order. -/
theorem c5_per_line_warnings (input : List (Except String String)) :
    read_json_objects input =
      (from_iter (input.filterMap recordOf), input.filterMap warningOf)
    ∧ (read_json_objects input).2.length =
        input.countP (fun x => (warningOf x).isSome) := by
  refine ⟨read_json_objects_eq input, ?_⟩
  rw [read_json_objects_eq]
  exact length_filterMap_eq_countP warningOf input

/-- C6, confirmed.  A zero-line file yields an empty map, no warnings and no
error; an input on which every line fails still yields an empty map. -/
theorem c6_empty_and_all_failed (input : List (Except String String))
    (h : ∀ x ∈ input, recordOf x = none) :
    processFile "" = ([], []) ∧ (read_json_objects input).1 = [] := by
  refine ⟨rfl, ?_⟩
  rw [read_json_objects_eq, List.filterMap_eq_nil_iff.mpr h]
  rfl

/-- C6, witness: bad JSON, a read error and a missing field all fail. -/
theorem c6_empty_and_all_failed_witness :
    processFile "" = ([], []) ∧ (read_json_objects allFailInput).1 = [] :=
  c6_empty_and_all_failed allFailInput (by decide)

/-- C7, corrected.  On the three Scenario A lines the map has exactly two
entries, `A ↦ 36` and `B ↦ 12` — the line `\x7b"type":"B"\x7d` is 12 bytes
long, not 13 as the claim states. -/
theorem c7_scenario_a :
    hmLookup (processFile scenarioContent).1 "A" = some 36
    ∧ hmLookup (processFile scenarioContent).1 "B" = some 12
    ∧ (processFile scenarioContent).1.length = 2 := by
  decide

/-- C7, counterexample to the claim as stated: group `B` does not total 13. -/
theorem c7_scenario_a_cex :
    hmLookup (processFile scenarioContent).1 "B" ≠ some 13 := by
  decide

/-- C8, confirmed.  The line source strips the trailing `\n` (and a `\r`
directly before it) before handing a line to the parser, so the recorded size
is the byte length of the line content without its terminator. -/
theorem c8_terminator_stripped (l rest : String) (r : LogEntryStatistic)
    (h1 : ∀ c ∈ l.data, c ≠ '\n') (h2 : l.data.getLast? ≠ some '\r')
    (h3 : parse_json l = Except.ok r) :
    rustLines (l ++ "\n" ++ rest) = l :: rustLines rest
    ∧ rustLines (l ++ "\r\n" ++ rest) = l :: rustLines rest
    ∧ r.size = l.utf8ByteSize := by
  refine ⟨?_, ?_, (parse_json_ok_inv l r h3).1⟩
  · unfold rustLines
    have hd : (l ++ "\n" ++ rest).data = l.data ++ '\n' :: rest.data := by
      simp [String.data_append]
    rw [hd, linesAux_newline l.data [] rest.data h1, List.append_nil,
      emitLine_reverse l.data h2]
    rfl
  · unfold rustLines
    have hd : (l ++ "\r\n" ++ rest).data = (l.data ++ ['\r']) ++ '\n' :: rest.data := by
      simp [String.data_append]
    have h1' : ∀ c ∈ l.data ++ ['\r'], c ≠ '\n' := by
      intro c hc
      rcases List.mem_append.mp hc with hcl | hcl
      · exact h1 c hcl
      · simp at hcl
        subst hcl
        decide
    rw [hd, linesAux_newline _ [] rest.data h1', List.append_nil]
    have he : emitLine ((l.data ++ ['\r']).reverse) = l.data := by
      rw [List.reverse_append]
      simp [emitLine]
    rw [he]
    rfl

/-- C8, witness: the group-`B` line with both terminators, followed by one
more character of input. -/
theorem c8_terminator_stripped_witness :
    rustLines (lineB ++ "\n" ++ "x") = lineB :: rustLines "x"
    ∧ rustLines (lineB ++ "\r\n" ++ "x") = lineB :: rustLines "x"
    ∧ (LogEntryStatistic.mk "B" 12).size = lineB.utf8ByteSize :=
  c8_terminator_stripped lineB "x" ⟨"B", 12⟩ (by decide) (by decide) (by rfl)

/-- C9, confirmed.  The structural stage accepts any JSON value; a non-object
top-level value fails only at the field lookup, with the same
`ParseError`-carrying-the-raw-line outcome as a missing grouping field. -/
theorem c9_non_object_rejected (raw : String) (j : Json)
    (h1 : from_str raw = some j) (h2 : ∀ fields, j ≠ Json.obj fields) :
    j.get GROUP_ID = none ∧ parse_json raw = Except.error ⟨raw⟩ := by
  have hg : j.get GROUP_ID = none := by
    cases j <;> first | rfl | exact absurd rfl (h2 _)
  refine ⟨hg, ?_⟩
  unfold parse_json
  rw [h1]
  simp only []
  rw [hg]

/-- C9, witness: the top-level array `[1]` deserializes and is then rejected
at the field lookup. -/
theorem c9_non_object_rejected_witness :
    (Json.arr [Json.num "1"]).get GROUP_ID = none
    ∧ parse_json "[1]" = Except.error ⟨"[1]"⟩ :=
  c9_non_object_rejected "[1]" (Json.arr [Json.num "1"]) (by rfl)
    (fun _ h => Json.noConfusion h)

/-- C10, confirmed.  Group totals are accumulated with 64-bit machine
addition: the stored balance is the mathematical sum reduced modulo `2 ^ 64`,
and equals the exact sum iff that sum is below `2 ^ 64`. -/
theorem c10_machine_addition (l : List LogEntryStatistic) (k : String) (v : Nat)
    (h : hmLookup (from_iter l) k = some v) :
    v = (sizesOf l k).sum % USIZE
    ∧ (v = (sizesOf l k).sum ↔ (sizesOf l k).sum < USIZE) := by
  rw [from_iter_lookup] at h
  by_cases hnil : sizesOf l k = []
  · rw [if_pos hnil] at h
    cases h
  · rw [if_neg hnil] at h
    injection h with h
    refine ⟨h.symm, ?_, fun hlt => by rw [← h, Nat.mod_eq_of_lt hlt]⟩
    intro he
    have hm : (sizesOf l k).sum % USIZE = (sizesOf l k).sum := by rw [h]; exact he
    rw [← hm]
    exact Nat.mod_lt _ USIZE_pos

/-- C10, witness: a single record of size 5. -/
theorem c10_machine_addition_witness :
    (5 : Nat) = (sizesOf [⟨"A", 5⟩] "A").sum % USIZE
    ∧ ((5 : Nat) = (sizesOf [⟨"A", 5⟩] "A").sum ↔
        (sizesOf [⟨"A", 5⟩] "A").sum < USIZE) :=
  c10_machine_addition [⟨"A", 5⟩] "A" 5 (by decide)

end LogAnalyzer
